import Mathlib

/-!
Shallow embedding of the similarity-clustering engine and the resumable
rewrite orchestrator of the auto-rewrite-commit repository
(src/clustering.py, src/utils.py, src/database.py, src/state_manager.py,
src/executor.py), together with theorems settling the frozen claims.

Numeric modelling: Python floats are modelled as exact rationals (ℚ); the
arithmetic performed by the code (weighted sums with 0.4/0.6, averages of
two values, ratios of small set cardinalities) is exact in ℚ.

String modelling: Python str is modelled as Lean String, and the Python
string primitives used by the code (str.lower, str.split, str.split of a
separator, str.strip, str.startswith) are given explicit structural
definitions on the character list so that they evaluate inside proofs.
Sets of strings (`set(...)` in Python) are modelled as Finset String.
`modified_files` is stored in the database as a JSON array of path strings
and decoded with utils.safe_json_loads before use; the embedding abstracts
that round-trip and carries the decoded List String directly.
-/

namespace AutoRewrite

/-- Python `str.lower()` restricted to ASCII letters (the inputs the tool
feeds it are diff texts; non-ASCII characters are left unchanged, as
Python does for characters without a lowercase mapping). -/
def pyLowerChar (c : Char) : Char :=
  if 65 ≤ c.toNat ∧ c.toNat ≤ 90 then Char.ofNat (c.toNat + 32) else c

/-- Python `str.lower()` on the whole string. -/
def pyLower (s : String) : String := String.mk (s.data.map pyLowerChar)

/-- Split a character list at every character satisfying `p`, keeping
empty pieces (the shape shared by Python `str.split(sep)` and, after
dropping empties, `str.split()`). -/
def splitAtChar (p : Char → Bool) : List Char → List (List Char)
  | [] => [[]]
  | c :: cs =>
    let r := splitAtChar p cs
    if p c then [] :: r
    else
      match r with
      | [] => [[c]]
      | w :: ws => (c :: w) :: ws

/-- Python `s.split()` — split on whitespace runs, no empty tokens. -/
def pySplitWs (s : String) : List String :=
  ((splitAtChar (fun c => c.isWhitespace) s.data).map String.mk).filter (fun w => w ≠ "")

/-- Python `s.split('\n')` — split at newlines, keeping empty pieces. -/
def pySplitLines (s : String) : List String :=
  (splitAtChar (fun c => c = '\n') s.data).map String.mk

/-- Python `s.strip()` — drop leading and trailing whitespace. -/
def pyStrip (s : String) : String :=
  String.mk (((s.data.dropWhile Char.isWhitespace).reverse.dropWhile Char.isWhitespace).reverse)

/-- Characterwise prefix test (Python `str.startswith`). -/
def startsWithChars : List Char → List Char → Bool
  | _, [] => true
  | [], _ :: _ => false
  | c :: cs, p :: ps => c = p && startsWithChars cs ps

/-- Python `s.startswith(pat)`. -/
def pyStartsWith (s pat : String) : Bool := startsWithChars s.data pat.data

/-- Python `s.lower().split()` as used by utils.calculate_text_similarity
(utils.py line 84): lowercase, then whitespace-tokenize. -/
def pyWords (s : String) : List String := pySplitWs (pyLower s)

/-- The word set `set(text.lower().split())` of utils.py line 84. -/
def wordSet (s : String) : Finset String := (pyWords s).toFinset

/-- utils.calculate_text_similarity (utils.py lines 78-93): Jaccard
similarity of lowercased whitespace-token word sets, with an early 0.0
when either text is empty and 1.0 when both word sets are empty. -/
def calculate_text_similarity (text1 text2 : String) : ℚ :=
  if text1 = "" ∨ text2 = "" then 0
  else
    let words1 := wordSet text1
    let words2 := wordSet text2
    if words1 = ∅ ∧ words2 = ∅ then 1
    else
      let intersection := (words1 ∩ words2).card
      let union := (words1 ∪ words2).card
      if 0 < union then (intersection : ℚ) / (union : ℚ) else 0

/-- The line filter of CommitClusterer._calculate_line_similarity
(clustering.py lines 192-193): keep a line when `line.strip()` is
non-empty and the line does not start with '+++', '---' or '@@'. -/
def lineKeep (l : String) : Bool :=
  pyStrip l ≠ "" && !(pyStartsWith l "+++" || pyStartsWith l "---" || pyStartsWith l "@@")

/-- The line set `set(diff.split('\n'))` of clustering.py line 185. -/
def lineSet (s : String) : Finset String := (pySplitLines s).toFinset

/-- CommitClusterer._calculate_line_similarity (clustering.py lines
175-201): Jaccard similarity of the filtered diff-line sets. -/
def calculate_line_similarity (diff1 diff2 : String) : ℚ :=
  let lines1 := lineSet diff1
  let lines2 := lineSet diff2
  if lines1 = ∅ ∧ lines2 = ∅ then 1
  else
    let f1 := lines1.filter (fun l => lineKeep l = true)
    let f2 := lines2.filter (fun l => lineKeep l = true)
    if f1 = ∅ ∧ f2 = ∅ then 1
    else
      let intersection := (f1 ∩ f2).card
      let union := (f1 ∪ f2).card
      if 0 < union then (intersection : ℚ) / (union : ℚ) else 0

/-- CommitClusterer._calculate_diff_content_similarity (clustering.py
lines 153-173): 0.0 when either diff is empty (Python truthiness guard
`if not diff1 or not diff2`), otherwise the average of the word-level and
line-level similarities. -/
def calculate_diff_content_similarity (diff1 diff2 : String) : ℚ :=
  if diff1 = "" ∨ diff2 = "" then 0
  else (calculate_text_similarity diff1 diff2 + calculate_line_similarity diff1 diff2) / 2

/-- Python `os.path.dirname` for POSIX paths (used by
utils.calculate_path_similarity): the prefix up to the last '/', with
trailing slashes stripped unless that prefix consists only of slashes. -/
def dirname (p : String) : String :=
  let rcs := p.data.reverse
  let afterLen := (rcs.takeWhile (fun c => c ≠ '/')).length
  let head := (rcs.drop afterLen).reverse
  if head.isEmpty then ""
  else if head.all (fun c => c = '/') then String.mk head
  else String.mk ((head.reverse.dropWhile (fun c => c = '/')).reverse)

/-- utils.calculate_path_similarity (utils.py lines 96-117): 0.0 when
either path list is empty — including both empty, since the guard
`if not paths1 or not paths2` fires before the both-dirs-empty branch —
otherwise the Jaccard similarity of the directory sets. -/
def calculate_path_similarity (paths1 paths2 : List String) : ℚ :=
  if paths1 = [] ∨ paths2 = [] then 0
  else
    let dirs1 := (paths1.map dirname).toFinset
    let dirs2 := (paths2.map dirname).toFinset
    if dirs1 = ∅ ∧ dirs2 = ∅ then 1
    else
      let intersection := (dirs1 ∩ dirs2).card
      let union := (dirs1 ∪ dirs2).card
      if 0 < union then (intersection : ℚ) / (union : ℚ) else 0

/-- CommitClusterer._calculate_diff_similarity (clustering.py lines
125-151): weighted sum of path similarity (0.4) and diff content
similarity (0.6). -/
def calculate_diff_similarity (diff1 diff2 : String) (files1 files2 : List String) : ℚ :=
  let path_sim := calculate_path_similarity files1 files2
  let diff_sim := calculate_diff_content_similarity diff1 diff2
  (0.4 : ℚ) * path_sim + (0.6 : ℚ) * diff_sim

/-! ## Commit records and the clustering engine (src/clustering.py) -/

/-- A commit row as the clustering engine and state store see it
(database.py commits table; dict rows in clustering.py).
`modified_files` carries the JSON-decoded path list. -/
structure Commit where
  hash : String
  parent_hash : Option String
  diff_content : String
  modified_files : List String
  commit_date : Int
  status : String
deriving DecidableEq, Repr

/-- Lookup in an association list with unique keys, modelling both the
Python dict `self.mapping` and the hash_mapping table keyed by old_hash
(its primary key, so at most one row per key). -/
def mapLookup (m : List (String × String)) (k : String) : Option String :=
  match m with
  | [] => none
  | p :: rest => if p.1 = k then some p.2 else mapLookup rest k

/-- CommitClusterer._is_continuous (clustering.py lines 103-123):
commit_a is continuous after commit_b when commit_a's parent hash is
truthy and equals commit_b's hash, or — when commit_b's hash has an entry
in the old→new mapping — equals the mapped hash. -/
def is_continuous (mapping : List (String × String)) (commit_a commit_b : Commit) : Bool :=
  match commit_a.parent_hash with
  | none => false
  | some p =>
    if p = "" then false
    else
      let b_hash :=
        match mapLookup mapping commit_b.hash with
        | some nh => nh
        | none => commit_b.hash
      p = b_hash

/-- The loop body state of CommitClusterer._find_groups (clustering.py
lines 72-101): `last` is `group[-1]`, `pre` the earlier members of the
current group in order, `rest` the commits still to process.  Returns the
yielded groups in order, the trailing open group included. -/
def find_groups_aux (threshold : ℚ) (max_group_size : Int)
    (mapping : List (String × String)) :
    Commit → List Commit → List Commit → List (List Commit)
  | last, pre, [] => [pre ++ [last]]
  | last, pre, c :: rest =>
    if is_continuous mapping c last = false then
      (pre ++ [last]) :: find_groups_aux threshold max_group_size mapping c [] rest
    else if max_group_size ≤ (pre.length + 1 : Int) then
      (pre ++ [last]) :: find_groups_aux threshold max_group_size mapping c [] rest
    else if threshold < calculate_diff_similarity c.diff_content last.diff_content
        c.modified_files last.modified_files then
      find_groups_aux threshold max_group_size mapping c (pre ++ [last]) rest
    else
      (pre ++ [last]) :: find_groups_aux threshold max_group_size mapping c [] rest

/-- CommitClusterer._find_groups (clustering.py lines 57-101) on an
already time-sorted commit list. -/
def find_groups (threshold : ℚ) (max_group_size : Int)
    (mapping : List (String × String)) : List Commit → List (List Commit)
  | [] => []
  | c :: rest => find_groups_aux threshold max_group_size mapping c [] rest

/-- The stable ascending sort by commit_date performed by
CommitClusterer.analyze_similarity (clustering.py line 44). -/
def sortByDate (commits : List Commit) : List Commit :=
  commits.mergeSort (fun a b => a.commit_date ≤ b.commit_date)

/-- The group list computed by CommitClusterer.analyze_similarity
(clustering.py lines 28-55): empty input short-circuits to [], otherwise
the commits are sorted by date and clustered.  The database side effects
(loading the mapping, persisting the groups) are modelled separately. -/
def analyze_similarity_groups (threshold : ℚ) (max_group_size : Int)
    (mapping : List (String × String)) (commits : List Commit) : List (List Commit) :=
  if commits = [] then []
  else find_groups threshold max_group_size mapping (sortByDate commits)

/-- CommitClusterer._calculate_group_similarities (clustering.py lines
203-228): 1.0 for the first member, adjacent-pair similarity after. -/
def calculate_group_similarities (group : List Commit) : List ℚ :=
  match group with
  | [] => []
  | _ :: rest =>
    1 :: (rest.zip group).map (fun p =>
      calculate_diff_similarity p.1.diff_content p.2.diff_content
        p.1.modified_files p.2.modified_files)

/-- One validation finding of CommitClusterer.validate_groups
(clustering.py lines 296-328).  The Python code appends a formatted
message string per violation; each constructor stands for one such
message, carrying the data interpolated into it. -/
inductive ValidationError where
  | size (group_index : Nat) (len : Nat)
  | continuity (group_index : Nat) (prev_hash cur_hash : String)
  | similarity (group_index : Nat) (score : ℚ)
deriving DecidableEq, Repr

/-- The findings for one group: the size check, then the continuity
checks over positions j = 1..len-1, then the similarity checks over the
same positions — in the order the Python loop appends them. -/
def validate_group_errors (threshold : ℚ) (max_group_size : Int)
    (mapping : List (String × String)) (i : Nat) (group : List Commit) :
    List ValidationError :=
  (if max_group_size < (group.length : Int) then
    [ValidationError.size i group.length] else [])
  ++ ((group.zip group.tail).filterMap (fun p =>
        if is_continuous mapping p.2 p.1 = false then
          some (ValidationError.continuity i p.1.hash p.2.hash) else none))
  ++ ((group.zip group.tail).filterMap (fun p =>
        let s := calculate_diff_similarity p.2.diff_content p.1.diff_content
          p.2.modified_files p.1.modified_files
        if s ≤ threshold then some (ValidationError.similarity i s) else none))

/-- CommitClusterer.validate_groups (clustering.py lines 296-328). -/
def validate_groups (threshold : ℚ) (max_group_size : Int)
    (mapping : List (String × String)) (groups : List (List Commit)) :
    List ValidationError :=
  ((groups.enum).map (fun p =>
    validate_group_errors threshold max_group_size mapping p.1 p.2)).flatten

/-! ## State store (src/database.py) and resume check -/

/-- DatabaseManager.get_pending_commits (database.py lines 142-156):
commits with status 'pending', ordered by commit_date ascending. -/
def get_pending_commits (commits : List Commit) : List Commit :=
  sortByDate (commits.filter (fun c => c.status = "pending"))

/-- The singleton session_state row (database.py lines 82-92).  Only the
fields the resume check can observe are carried. -/
structure SessionState where
  branch : String
  backup_branch : Option String
  current_position : Option String
  total_commits : Int
  processed_commits : Int
deriving DecidableEq, Repr

/-- The state-store contents the resume check reads: the commits table
and the optional session_state singleton row. -/
structure DbState where
  commits : List Commit
  session : Option SessionState
deriving DecidableEq, Repr

/-- DatabaseManager.can_resume (database.py lines 338-350): false when no
session row exists, otherwise true exactly when the pending-commit count
is positive.  StateManager.can_resume (state_manager.py lines 23-29)
delegates to this unchanged. -/
def can_resume (db : DbState) : Bool :=
  match db.session with
  | none => false
  | some _ => decide (0 < (get_pending_commits db.commits).length)

/-! ## Group persistence (database.py save_commit_group, clustering.py
analyze_similarity lines 46-55) -/

/-- One row of the commit_groups table (database.py lines 69-78).  The
column group_id is declared INTEGER PRIMARY KEY AUTOINCREMENT, so the
table enforces uniqueness of group_id across all rows. -/
structure GroupRow where
  group_id : Nat
  commit_hash : String
  group_order : Nat
  similarity : ℚ
deriving DecidableEq, Repr

/-- An INSERT into commit_groups: appends the row, or fails with the
SQLite UNIQUE-constraint error when a row with the same group_id (the
INTEGER PRIMARY KEY) already exists. -/
def insertGroupRow (table : List GroupRow) (r : GroupRow) :
    Except String (List GroupRow) :=
  if table.any (fun q => q.group_id = r.group_id) then
    Except.error "UNIQUE constraint failed: commit_groups.group_id"
  else Except.ok (table ++ [r])

/-- Run the INSERT loop of save_commit_group; the first failure aborts. -/
def insertGroupRows (table : List GroupRow) : List GroupRow → Except String (List GroupRow)
  | [] => Except.ok table
  | r :: rs =>
    match insertGroupRow table r with
    | Except.error e => Except.error e
    | Except.ok t => insertGroupRows t rs

/-- DatabaseManager.save_commit_group (database.py lines 227-249): one
transaction that deletes the rows of this group_id, then inserts a row
per (commit, similarity) pair (zip truncates to the shorter list) with
group_order = position.  On a constraint violation the connection context
rolls the whole transaction back, so the table is left unchanged and the
exception propagates. -/
def save_commit_group (gid : Nat) (commits : List Commit) (sims : List ℚ)
    (table : List GroupRow) : Except String (List GroupRow) :=
  let cleared := table.filter (fun r => r.group_id ≠ gid)
  let rows := ((commits.zip sims).enum).map (fun p =>
    { group_id := gid, commit_hash := p.2.1.hash,
      group_order := p.1, similarity := p.2.2 : GroupRow })
  match insertGroupRows cleared rows with
  | Except.ok t => Except.ok t
  | Except.error e => Except.error e

/-- The persistence loop of CommitClusterer.analyze_similarity
(clustering.py lines 49-52): for each enumerated group, compute its
similarity list and save it.  Each save_commit_group call is its own
transaction, so when one fails the earlier groups stay committed; the
error value carries the table as the failing run leaves it. -/
def persist_groups (groups : List (List Commit)) (table : List GroupRow) :
    Except (String × List GroupRow) (List GroupRow) :=
  go (groups.enum) table
where
  go : List (Nat × List Commit) → List GroupRow →
      Except (String × List GroupRow) (List GroupRow)
  | [], t => Except.ok t
  | (i, g) :: rest, t =>
    match save_commit_group i g (calculate_group_similarities g) t with
    | Except.error e => Except.error (e, t)
    | Except.ok t2 => go rest t2

/-! ## Sequential rewrite (src/executor.py) -/

/-- Outcome of a single cherry-pick attempt in
RewriteExecutor._sequential_rewrite (executor.py lines 347-374). -/
inductive ReplayOutcome where
  | ok
  | conflict
deriving DecidableEq, Repr

/-- The cherry-pick loop of RewriteExecutor._sequential_rewrite
(executor.py lines 338-374), abstracted over the VCS: `conflicts h` tells
whether cherry-picking original commit `h` raises.  The scratch branch
starts at the branch root; a successful cherry-pick appends a fresh
commit (modelled as the tag "new:" ++ hash), a conflicting one is
aborted and appends nothing.  The loop itself writes no state-store
entries; it only logs per-commit outcomes (console output in the source).
Returns (scratch branch commits, outcome log in input order). -/
def sequential_rewrite (conflicts : String → Bool) (root : String)
    (commits : List Commit) : List String × List (String × ReplayOutcome) :=
  commits.foldl
    (fun acc c =>
      if conflicts c.hash then
        (acc.1, acc.2 ++ [(c.hash, ReplayOutcome.conflict)])
      else
        (acc.1 ++ ["new:" ++ c.hash], acc.2 ++ [(c.hash, ReplayOutcome.ok)]))
    ([root], [])

/-- UPDATE commits SET status = s WHERE hash = h
(database.py update_commit_status, via StateManager.mark_commit_processed);
hash is the commits table primary key, so at most one row matches. -/
def setStatus (statuses : List (String × String)) (h s : String) :
    List (String × String) :=
  match statuses with
  | [] => []
  | p :: rest => if p.1 = h then (p.1, s) :: rest else p :: setStatus rest h s

/-- INSERT OR REPLACE INTO hash_mapping (database.py save_hash_mapping):
replace the row whose key (old_hash, the primary key, hence unique)
matches, append a fresh row otherwise. -/
def insertOrReplace (m : List (String × String)) (k v : String) :
    List (String × String) :=
  match m with
  | [] => [(k, v)]
  | p :: rest => if p.1 = k then (k, v) :: rest else p :: insertOrReplace rest k v

/-- RewriteExecutor._update_state_after_rebase_all (executor.py lines
757-780): for every commit hash that received a generated message —
regardless of its replay outcome — mark it 'done' and save a hash mapping
from it to the single current HEAD of the rewritten branch. -/
def update_state_after_rebase_all (commitMessages : List String)
    (currentHead : String)
    (statuses mapping : List (String × String)) :
    List (String × String) × List (String × String) :=
  commitMessages.foldl
    (fun acc h => (setStatus acc.1 h "done", insertOrReplace acc.2 h currentHead))
    (statuses, mapping)

/-- Observable outcome of the rewrite pipeline: the commits table
statuses, the hash_mapping table, the final HEAD of the rewritten branch
and the per-commit replay log. -/
structure RewriteResult where
  statuses : List (String × String)
  mapping : List (String × String)
  head : String
  log : List (String × ReplayOutcome)
deriving DecidableEq, Repr

/-- The _sequential_rewrite / _update_state_after_rebase_all pipeline of
RewriteExecutor._rewrite_all_commits (executor.py lines 294-298): run the
cherry-pick loop, take the resulting branch tip as current HEAD, then
update statuses and mappings. -/
def rewrite_pipeline (conflicts : String → Bool) (root : String)
    (commits : List Commit) (commitMessages : List String)
    (statuses mapping : List (String × String)) : RewriteResult :=
  let res := sequential_rewrite conflicts root commits
  let head := res.1.getLastD root
  let upd := update_state_after_rebase_all commitMessages head statuses mapping
  { statuses := upd.1, mapping := upd.2, head := head, log := res.2 }

/-! ## Spec-side similarity formula (for comparison with the code)

The claim describing the similarity model states it as a closed formula:
0.4 * pathSimilarity + 0.6 * diffSimilarity with diffSimilarity the plain
average of a word-set Jaccard index and a filtered line-set Jaccard
index.  The following definitions follow that wording (with the Jaccard
index of two empty sets taken as 1.0, the convention the code itself uses
inside both sub-functions), to be compared against the functions above
that are translated from the code. -/

/-- Jaccard index of two finite string sets, 1.0 when both are empty. -/
def jaccardSet (A B : Finset String) : ℚ :=
  if A = ∅ ∧ B = ∅ then 1 else ((A ∩ B).card : ℚ) / ((A ∪ B).card : ℚ)

/-- The word-level similarity as the claim words it: Jaccard index over
lowercased whitespace-tokenized words of the two diffs. -/
def claimed_word_similarity (diff1 diff2 : String) : ℚ :=
  jaccardSet (wordSet diff1) (wordSet diff2)

/-- The filtered line set of a diff: blank lines and lines starting with
'+++', '---' or '@@' removed. -/
def filteredLineSet (s : String) : Finset String :=
  (lineSet s).filter (fun l => lineKeep l = true)

/-- The line-level similarity as the claim words it: case-sensitive
Jaccard index over the filtered diff-line sets. -/
def claimed_line_similarity (diff1 diff2 : String) : ℚ :=
  jaccardSet (filteredLineSet diff1) (filteredLineSet diff2)

/-- The pairwise similarity as the claim words it: 0.4 * pathSimilarity
plus 0.6 * the average of the two Jaccard indices, with no empty-diff
short-circuit. -/
def claimed_diff_similarity (diff1 diff2 : String) (files1 files2 : List String) : ℚ :=
  (0.4 : ℚ) * calculate_path_similarity files1 files2 +
    (0.6 : ℚ) * ((claimed_word_similarity diff1 diff2 + claimed_line_similarity diff1 diff2) / 2)

/-! ## Evaluation and bounds lemmas for the similarity model -/

lemma jaccardSet_nonneg (A B : Finset String) : 0 ≤ jaccardSet A B := by
  unfold jaccardSet
  split
  · norm_num
  · positivity

lemma jaccardSet_le_one (A B : Finset String) : jaccardSet A B ≤ 1 := by
  unfold jaccardSet
  split
  · norm_num
  · next h =>
    rcases Finset.eq_empty_or_nonempty A with hA | hA
    · rcases Finset.eq_empty_or_nonempty B with hB | hB
      · exact absurd (And.intro hA hB) h
      · have hu : (0 : ℚ) < ((A ∪ B).card : ℚ) := by
          have hpos : 0 < (A ∪ B).card :=
            Finset.card_pos.mpr (hB.mono Finset.subset_union_right)
          exact_mod_cast hpos
        rw [div_le_one hu]
        exact_mod_cast Finset.card_le_card Finset.inter_subset_union
    · have hu : (0 : ℚ) < ((A ∪ B).card : ℚ) := by
        have hpos : 0 < (A ∪ B).card :=
          Finset.card_pos.mpr (hA.mono Finset.subset_union_left)
        exact_mod_cast hpos
      rw [div_le_one hu]
      exact_mod_cast Finset.card_le_card Finset.inter_subset_union

lemma jaccardSet_self (A : Finset String) : jaccardSet A A = 1 := by
  unfold jaccardSet
  split
  · rfl
  · next h =>
    have hA : A ≠ ∅ := fun hc => h ⟨hc, hc⟩
    have hc : (0 : ℚ) < (A.card : ℚ) := by
      exact_mod_cast Finset.card_pos.mpr (Finset.nonempty_iff_ne_empty.mpr hA)
    rw [Finset.inter_self, Finset.union_self]
    exact div_self (ne_of_gt hc)

lemma unionCardPos {A B : Finset String} (h : ¬(A = ∅ ∧ B = ∅)) :
    0 < (A ∪ B).card := by
  rcases Finset.eq_empty_or_nonempty A with hA | hA
  · rcases Finset.eq_empty_or_nonempty B with hB | hB
    · exact absurd ⟨hA, hB⟩ h
    · exact Finset.card_pos.mpr (hB.mono Finset.subset_union_right)
  · exact Finset.card_pos.mpr (hA.mono Finset.subset_union_left)

lemma calculate_text_similarity_eq (text1 text2 : String)
    (h1 : text1 ≠ "") (h2 : text2 ≠ "") :
    calculate_text_similarity text1 text2 = jaccardSet (wordSet text1) (wordSet text2) := by
  simp only [calculate_text_similarity, jaccardSet]
  rw [if_neg (by simp [h1, h2])]
  by_cases hb : wordSet text1 = ∅ ∧ wordSet text2 = ∅
  · rw [if_pos hb, if_pos hb]
  · rw [if_neg hb, if_neg hb, if_pos (unionCardPos hb)]

lemma calculate_line_similarity_eq (diff1 diff2 : String) :
    calculate_line_similarity diff1 diff2 =
      jaccardSet (filteredLineSet diff1) (filteredLineSet diff2) := by
  simp only [calculate_line_similarity, jaccardSet, filteredLineSet]
  by_cases h0 : lineSet diff1 = ∅ ∧ lineSet diff2 = ∅
  · rw [if_pos h0, h0.1, h0.2]
    simp [Finset.filter_empty]
  · rw [if_neg h0]
    by_cases hb : (lineSet diff1).filter (fun l => lineKeep l = true) = ∅ ∧
        (lineSet diff2).filter (fun l => lineKeep l = true) = ∅
    · rw [if_pos hb, if_pos hb]
    · rw [if_neg hb, if_neg hb, if_pos (unionCardPos hb)]

lemma calculate_path_similarity_spec (paths1 paths2 : List String) :
    calculate_path_similarity paths1 paths2 =
      if paths1 = [] ∨ paths2 = [] then 0
      else jaccardSet ((paths1.map dirname).toFinset) ((paths2.map dirname).toFinset) := by
  simp only [calculate_path_similarity, jaccardSet]
  by_cases he : paths1 = [] ∨ paths2 = []
  · rw [if_pos he, if_pos he]
  · rw [if_neg he, if_neg he]
    push_neg at he
    have hd1 : (paths1.map dirname).toFinset ≠ ∅ := by
      simp [List.toFinset_eq_empty_iff, he.1]
    have hb : ¬((paths1.map dirname).toFinset = ∅ ∧ (paths2.map dirname).toFinset = ∅) :=
      fun hc => hd1 hc.1
    rw [if_neg hb, if_neg hb, if_pos (unionCardPos hb)]

lemma calculate_text_similarity_self (t : String) (h : t ≠ "") :
    calculate_text_similarity t t = 1 := by
  rw [calculate_text_similarity_eq t t h h, jaccardSet_self]

lemma calculate_line_similarity_self (d : String) :
    calculate_line_similarity d d = 1 := by
  rw [calculate_line_similarity_eq, jaccardSet_self]

lemma calculate_path_similarity_self (p : List String) (h : p ≠ []) :
    calculate_path_similarity p p = 1 := by
  rw [calculate_path_similarity_spec, if_neg (by simp [h]), jaccardSet_self]

lemma calculate_diff_content_similarity_self (d : String) (h : d ≠ "") :
    calculate_diff_content_similarity d d = 1 := by
  simp only [calculate_diff_content_similarity]
  rw [if_neg (by simp [h]), calculate_text_similarity_self d h,
    calculate_line_similarity_self d]
  norm_num

lemma calculate_diff_similarity_self (d : String) (f : List String)
    (hd : d ≠ "") (hf : f ≠ []) :
    calculate_diff_similarity d d f f = 1 := by
  simp only [calculate_diff_similarity]
  rw [calculate_path_similarity_self f hf, calculate_diff_content_similarity_self d hd]
  norm_num

lemma calculate_text_similarity_bounds (t1 t2 : String) :
    0 ≤ calculate_text_similarity t1 t2 ∧ calculate_text_similarity t1 t2 ≤ 1 := by
  by_cases he : t1 = "" ∨ t2 = ""
  · rw [show calculate_text_similarity t1 t2 = 0 by
      simp only [calculate_text_similarity]; rw [if_pos he]]
    norm_num
  · push_neg at he
    rw [calculate_text_similarity_eq t1 t2 he.1 he.2]
    exact ⟨jaccardSet_nonneg _ _, jaccardSet_le_one _ _⟩

lemma calculate_line_similarity_bounds (d1 d2 : String) :
    0 ≤ calculate_line_similarity d1 d2 ∧ calculate_line_similarity d1 d2 ≤ 1 := by
  rw [calculate_line_similarity_eq]
  exact ⟨jaccardSet_nonneg _ _, jaccardSet_le_one _ _⟩

lemma calculate_path_similarity_bounds (p1 p2 : List String) :
    0 ≤ calculate_path_similarity p1 p2 ∧ calculate_path_similarity p1 p2 ≤ 1 := by
  rw [calculate_path_similarity_spec]
  split
  · norm_num
  · exact ⟨jaccardSet_nonneg _ _, jaccardSet_le_one _ _⟩

lemma calculate_diff_content_similarity_bounds (d1 d2 : String) :
    0 ≤ calculate_diff_content_similarity d1 d2 ∧
      calculate_diff_content_similarity d1 d2 ≤ 1 := by
  simp only [calculate_diff_content_similarity]
  split
  · norm_num
  · obtain ⟨ht0, ht1⟩ := calculate_text_similarity_bounds d1 d2
    obtain ⟨hl0, hl1⟩ := calculate_line_similarity_bounds d1 d2
    constructor <;> linarith

lemma calculate_diff_similarity_bounds (d1 d2 : String) (f1 f2 : List String) :
    0 ≤ calculate_diff_similarity d1 d2 f1 f2 ∧
      calculate_diff_similarity d1 d2 f1 f2 ≤ 1 := by
  simp only [calculate_diff_similarity]
  obtain ⟨hp0, hp1⟩ := calculate_path_similarity_bounds f1 f2
  obtain ⟨hd0, hd1⟩ := calculate_diff_content_similarity_bounds d1 d2
  norm_num
  constructor <;> linarith

/-! ## Invariants of the grouping loop -/

/-- The relation the grouping loop maintains between adjacent members of
a group (earlier member first): the later commit passed the continuity
check against the earlier one and their similarity was strictly above the
threshold. -/
def adjacentOk (t : ℚ) (m : List (String × String)) (a b : Commit) : Prop :=
  is_continuous m b a = true ∧
    t < calculate_diff_similarity b.diff_content a.diff_content
      b.modified_files a.modified_files

lemma find_groups_aux_flatten (t : ℚ) (ms : Int) (m : List (String × String)) :
    ∀ (rest : List Commit) (last : Commit) (pre : List Commit),
      (find_groups_aux t ms m last pre rest).flatten = pre ++ last :: rest := by
  intro rest
  induction rest with
  | nil =>
    intro last pre
    simp [find_groups_aux]
  | cons c rest ih =>
    intro last pre
    simp only [find_groups_aux]
    split
    · simp [ih]
    · split
      · simp [ih]
      · split
        · rw [ih]
          simp
        · simp [ih]

lemma chain'_zip_tail {α : Type} (R : α → α → Prop) :
    ∀ (l : List α), List.Chain' R l → ∀ p ∈ l.zip l.tail, R p.1 p.2 := by
  intro l
  induction l with
  | nil => simp
  | cons a l2 ih =>
    intro h p hp
    cases l2 with
    | nil => simp at hp
    | cons b l3 =>
      rw [List.chain'_cons] at h
      simp only [List.tail_cons, List.zip_cons_cons, List.mem_cons] at hp
      rcases hp with rfl | hp2
      · exact h.1
      · exact ih h.2 p hp2

lemma find_groups_aux_chain (t : ℚ) (ms : Int) (m : List (String × String)) :
    ∀ (rest : List Commit) (last : Commit) (pre : List Commit),
      List.Chain' (adjacentOk t m) (pre ++ [last]) →
      ∀ g ∈ find_groups_aux t ms m last pre rest,
        List.Chain' (adjacentOk t m) g := by
  intro rest
  induction rest with
  | nil =>
    intro last pre h g hg
    simp only [find_groups_aux, List.mem_singleton] at hg
    subst hg
    exact h
  | cons c rest ih =>
    intro last pre h g hg
    simp only [find_groups_aux] at hg
    split at hg
    · rcases List.mem_cons.mp hg with rfl | hg2
      · exact h
      · exact ih c [] (List.chain'_singleton c) g hg2
    · split at hg
      · rcases List.mem_cons.mp hg with rfl | hg2
        · exact h
        · exact ih c [] (List.chain'_singleton c) g hg2
      · split at hg
        · next hcont hsize hsim =>
          refine ih c (pre ++ [last]) ?_ g hg
          rw [List.chain'_append]
          refine ⟨h, List.chain'_singleton c, ?_⟩
          intro x hx y hy
          rw [List.getLast?_concat] at hx
          simp only [List.head?_cons, Option.mem_def, Option.some.injEq] at hx hy
          subst hx
          subst hy
          exact ⟨Bool.not_eq_false _ |>.mp hcont, hsim⟩
        · rcases List.mem_cons.mp hg with rfl | hg2
          · exact h
          · exact ih c [] (List.chain'_singleton c) g hg2

lemma find_groups_aux_size (t : ℚ) (ms : Int) (m : List (String × String))
    (hms : (1 : Int) ≤ ms) :
    ∀ (rest : List Commit) (last : Commit) (pre : List Commit),
      ((pre.length : Int) + 1 ≤ ms) →
      ∀ g ∈ find_groups_aux t ms m last pre rest, (g.length : Int) ≤ ms := by
  intro rest
  induction rest with
  | nil =>
    intro last pre h g hg
    simp only [find_groups_aux, List.mem_singleton] at hg
    subst hg
    simp only [List.length_append, List.length_cons, List.length_nil]
    push_cast
    linarith
  | cons c rest ih =>
    intro last pre h g hg
    simp only [find_groups_aux] at hg
    split at hg
    · rcases List.mem_cons.mp hg with rfl | hg2
      · simp only [List.length_append, List.length_cons, List.length_nil]
        push_cast
        linarith
      · exact ih c [] (by simpa using hms) g hg2
    · split at hg
      · rcases List.mem_cons.mp hg with rfl | hg2
        · simp only [List.length_append, List.length_cons, List.length_nil]
          push_cast
          linarith
        · exact ih c [] (by simpa using hms) g hg2
      · split at hg
        · next hcont hsize hsim =>
          refine ih c (pre ++ [last]) ?_ g hg
          push_neg at hsize
          simp only [List.length_append, List.length_cons, List.length_nil]
          push_cast
          linarith
        · rcases List.mem_cons.mp hg with rfl | hg2
          · simp only [List.length_append, List.length_cons, List.length_nil]
            push_cast
            linarith
          · exact ih c [] (by simpa using hms) g hg2

/-- Groups produced by find_groups satisfy the adjacency invariant. -/
lemma find_groups_chain (t : ℚ) (ms : Int) (m : List (String × String))
    (commits : List Commit) (g : List Commit)
    (hg : g ∈ find_groups t ms m commits) :
    List.Chain' (adjacentOk t m) g := by
  cases commits with
  | nil => simp [find_groups] at hg
  | cons c rest =>
    exact find_groups_aux_chain t ms m rest c [] (List.chain'_singleton c) g hg

/-- Groups produced by find_groups respect the size bound when the bound
is at least one. -/
lemma find_groups_size (t : ℚ) (ms : Int) (m : List (String × String))
    (hms : (1 : Int) ≤ ms) (commits : List Commit) (g : List Commit)
    (hg : g ∈ find_groups t ms m commits) :
    (g.length : Int) ≤ ms := by
  cases commits with
  | nil => simp [find_groups] at hg
  | cons c rest =>
    exact find_groups_aux_size t ms m hms rest c [] (by simpa using hms) g hg

/-- A group whose adjacent pairs satisfy the loop invariant and whose
length is within the bound produces no validation findings. -/
lemma validate_group_errors_nil (t : ℚ) (ms : Int) (m : List (String × String))
    (i : Nat) (g : List Commit)
    (hchain : List.Chain' (adjacentOk t m) g) (hlen : (g.length : Int) ≤ ms) :
    validate_group_errors t ms m i g = [] := by
  unfold validate_group_errors
  rw [if_neg (not_lt.mpr hlen)]
  rw [List.filterMap_eq_nil_iff.mpr ?_, List.filterMap_eq_nil_iff.mpr ?_]
  · simp
  · intro p hp
    have h := chain'_zip_tail _ g hchain p hp
    simp only [if_neg (not_le.mpr h.2)]
  · intro p hp
    have h := chain'_zip_tail _ g hchain p hp
    simp [h.1]

/-! ## Concrete commits used by witnesses and counterexamples -/

/-- A root commit with a non-empty diff and one touched path. -/
def cA : Commit :=
  { hash := "a1", parent_hash := none,
    diff_content := "diff --git a/f b/f\n+x",
    modified_files := ["src/f"], commit_date := 1000, status := "pending" }

/-- A child of cA with the identical diff and path list, so that the
pair's similarity is exactly 1. -/
def cB : Commit :=
  { hash := "b2", parent_hash := some "a1",
    diff_content := "diff --git a/f b/f\n+x",
    modified_files := ["src/f"], commit_date := 2000, status := "pending" }

lemma sim_cB_cA :
    calculate_diff_similarity cB.diff_content cA.diff_content
      cB.modified_files cA.modified_files = 1 :=
  calculate_diff_similarity_self _ _ (by decide) (by decide)

lemma find_groups_example :
    find_groups (0.8 : ℚ) 10 [] [cA, cB] = [[cA, cB]] := by
  show find_groups_aux (0.8 : ℚ) 10 [] cA [] [cB] = [[cA, cB]]
  simp only [find_groups_aux]
  rw [if_neg (by decide), if_neg (by decide),
    if_pos (by rw [sim_cB_cA]; norm_num)]
  simp [find_groups_aux]

/-! ## Claims -/

/-- C1: for every input, the clustering pass partitions the commits: the
concatenation of the groups of analyze_similarity is a permutation of the
input (the pass sorts by date first), the concatenation of the groups of
_find_groups is exactly its input, the empty input yields no groups, and
a single commit yields one singleton group. -/
theorem clustering_partitions_input (t : ℚ) (ms : Int) (m : List (String × String)) :
    (∀ commits : List Commit,
      (analyze_similarity_groups t ms m commits).flatten.Perm commits)
    ∧ (∀ commits : List Commit, (find_groups t ms m commits).flatten = commits)
    ∧ analyze_similarity_groups t ms m [] = []
    ∧ (∀ c : Commit, analyze_similarity_groups t ms m [c] = [[c]]) := by
  have hfg : ∀ commits : List Commit, (find_groups t ms m commits).flatten = commits := by
    intro commits
    cases commits with
    | nil => simp [find_groups]
    | cons c rest =>
      have h := find_groups_aux_flatten t ms m rest c []
      simpa [find_groups] using h
  refine ⟨?_, hfg, by simp [analyze_similarity_groups], ?_⟩
  · intro commits
    by_cases h : commits = []
    · subst h
      simp [analyze_similarity_groups]
    · rw [analyze_similarity_groups, if_neg h, hfg]
      exact List.mergeSort_perm commits _
  · intro c
    simp [analyze_similarity_groups, sortByDate, find_groups, find_groups_aux]

/-- C2: every group produced by the grouping pass has continuity between
adjacent members (the later member's parent hash equals the earlier
member's hash, or its mapped hash when the mapping has an entry), and
when max_group_size ≥ 1 no group exceeds max_group_size members. -/
theorem group_invariants (t : ℚ) (ms : Int) (m : List (String × String))
    (commits : List Commit) (g : List Commit)
    (hg : g ∈ find_groups t ms m commits) :
    List.Chain' (fun a b => is_continuous m b a = true) g
    ∧ ((1 : Int) ≤ ms → (g.length : Int) ≤ ms) := by
  constructor
  · exact (find_groups_chain t ms m commits g hg).imp (fun a b h => h.1)
  · intro hms
    exact find_groups_size t ms m hms commits g hg

/-- Witness for C2 at a concrete input: the two-commit chain with
identical diffs forms a single group satisfying both invariants. -/
theorem group_invariants_witness :
    [cA, cB] ∈ find_groups (0.8 : ℚ) 10 [] [cA, cB]
    ∧ (List.Chain' (fun a b => is_continuous [] b a = true) [cA, cB]
       ∧ ((1 : Int) ≤ 10 → (([cA, cB] : List Commit).length : Int) ≤ 10)) := by
  have hmem : [cA, cB] ∈ find_groups (0.8 : ℚ) 10 [] [cA, cB] := by
    rw [find_groups_example]
    exact List.mem_singleton.mpr rfl
  exact ⟨hmem, group_invariants (0.8 : ℚ) 10 [] [cA, cB] [cA, cB] hmem⟩

/-- C3: the merge decision is strict: when the next commit is continuous
with the current group's last member and the group is below capacity, a
similarity less than or equal to the threshold (so in particular exactly
equal) closes the group and starts a new one with that commit, while a
similarity strictly above the threshold appends it. -/
theorem threshold_strictness (t : ℚ) (ms : Int) (m : List (String × String))
    (last : Commit) (pre rest : List Commit) (c : Commit)
    (hcont : is_continuous m c last = true)
    (hsize : (pre.length : Int) + 1 < ms) :
    (calculate_diff_similarity c.diff_content last.diff_content
        c.modified_files last.modified_files ≤ t →
      find_groups_aux t ms m last pre (c :: rest)
        = (pre ++ [last]) :: find_groups_aux t ms m c [] rest)
    ∧ (t < calculate_diff_similarity c.diff_content last.diff_content
        c.modified_files last.modified_files →
      find_groups_aux t ms m last pre (c :: rest)
        = find_groups_aux t ms m c (pre ++ [last]) rest) := by
  constructor
  · intro hle
    simp only [find_groups_aux]
    rw [if_neg (by simp [hcont]), if_neg (not_le.mpr hsize), if_neg (not_lt.mpr hle)]
  · intro hlt
    simp only [find_groups_aux]
    rw [if_neg (by simp [hcont]), if_neg (not_le.mpr hsize), if_pos hlt]

/-- Witness for C3 at a concrete input: with threshold exactly 1 the pair
cA, cB has similarity exactly equal to the threshold and is not merged —
the group [cA] is closed and cB starts a new singleton group. -/
theorem threshold_strictness_witness :
    is_continuous [] cB cA = true
    ∧ ((([] : List Commit).length : Int) + 1 < 10)
    ∧ calculate_diff_similarity cB.diff_content cA.diff_content
        cB.modified_files cA.modified_files ≤ 1
    ∧ find_groups_aux (1 : ℚ) 10 [] cA [] [cB] = [[cA], [cB]] := by
  have hcont : is_continuous [] cB cA = true := by decide
  have hsize : (([] : List Commit).length : Int) + 1 < 10 := by norm_num
  have hle : calculate_diff_similarity cB.diff_content cA.diff_content
      cB.modified_files cA.modified_files ≤ 1 := le_of_eq sim_cB_cA
  have h := (threshold_strictness (1 : ℚ) 10 [] cA [] [] cB hcont hsize).1 hle
  refine ⟨hcont, hsize, hle, ?_⟩
  rw [h]
  simp [find_groups_aux]

/-- C4 (amended): the pairwise similarity equals
0.4 * pathSimilarity + 0.6 * diffSimilarity where diffSimilarity is 0.0
when either diff text is empty and otherwise the average of the
word-level Jaccard index and the filtered line-level Jaccard index; the
result always lies in [0, 1]. -/
theorem similarity_formula (d1 d2 : String) (f1 f2 : List String) :
    calculate_diff_similarity d1 d2 f1 f2
      = (0.4 : ℚ) * calculate_path_similarity f1 f2
        + (0.6 : ℚ) * (if d1 = "" ∨ d2 = "" then 0
            else (claimed_word_similarity d1 d2 + claimed_line_similarity d1 d2) / 2)
    ∧ 0 ≤ calculate_diff_similarity d1 d2 f1 f2
    ∧ calculate_diff_similarity d1 d2 f1 f2 ≤ 1 := by
  refine ⟨?_, (calculate_diff_similarity_bounds d1 d2 f1 f2).1,
    (calculate_diff_similarity_bounds d1 d2 f1 f2).2⟩
  simp only [calculate_diff_similarity, calculate_diff_content_similarity]
  by_cases he : d1 = "" ∨ d2 = ""
  · rw [if_pos he, if_pos he]
  · push_neg at he
    rw [if_neg (by tauto), if_neg (by tauto),
      calculate_text_similarity_eq d1 d2 he.1 he.2, calculate_line_similarity_eq]
    rfl

/-- Counterexample for C4 as stated: with both diffs empty and identical
non-empty path lists, the code short-circuits diffSimilarity to 0.0 and
returns 0.4, while the claimed plain average of the two Jaccard indices
(both 1, the code's own convention for two empty sets) gives 1. -/
theorem similarity_formula_counterexample :
    calculate_diff_similarity "" "" ["a/b"] ["a/b"]
      ≠ claimed_diff_similarity "" "" ["a/b"] ["a/b"] := by
  have hpath : calculate_path_similarity ["a/b"] ["a/b"] = 1 :=
    calculate_path_similarity_self _ (by decide)
  have hlhs : calculate_diff_similarity "" "" ["a/b"] ["a/b"] = 2/5 := by
    simp only [calculate_diff_similarity, calculate_diff_content_similarity]
    rw [if_pos (by tauto), hpath]
    norm_num
  have hword : claimed_word_similarity "" "" = 1 := jaccardSet_self _
  have hline : claimed_line_similarity "" "" = 1 := jaccardSet_self _
  have hrhs : claimed_diff_similarity "" "" ["a/b"] ["a/b"] = 1 := by
    unfold claimed_diff_similarity
    rw [hpath, hword, hline]
    norm_num
  rw [hlhs, hrhs]
  norm_num

/-- C5 (amended): pathSimilarity is the Jaccard index over the directory
sets of the touched paths, except that it returns 0.0 whenever either
path list is empty — including when both are empty. -/
theorem path_similarity_directories (paths1 paths2 : List String) :
    calculate_path_similarity paths1 paths2
      = (if paths1 = [] ∨ paths2 = [] then 0
         else jaccardSet ((paths1.map dirname).toFinset)
            ((paths2.map dirname).toFinset)) :=
  calculate_path_similarity_spec paths1 paths2

/-- Counterexample for C5 as stated: two empty path lists give 0.0,
not the claimed 1.0 (the 1.0 branch of the source is unreachable because
the `not paths1 or not paths2` guard fires first). -/
theorem path_similarity_counterexample :
    calculate_path_similarity [] [] = 0 ∧ calculate_path_similarity [] [] ≠ 1 := by
  refine ⟨by decide, ?_⟩
  intro h
  rw [show calculate_path_similarity [] [] = 0 by decide] at h
  exact absurd h (by norm_num)

/-- C8 (amended): identical diff and path inputs yield similarity 1.0
provided the shared diff text is non-empty and the shared path list is
non-empty (with an empty diff or an empty path list the early-exit
branches give 0.6 or 0.4 or 0 instead). -/
theorem identical_inputs_similarity (d : String) (f : List String)
    (hd : d ≠ "") (hf : f ≠ []) :
    calculate_diff_similarity d d f f = 1 :=
  calculate_diff_similarity_self d f hd hf

/-- Witness for C8 at a concrete input. -/
theorem identical_inputs_similarity_witness :
    ("+x" : String) ≠ "" ∧ (["a/b"] : List String) ≠ []
    ∧ calculate_diff_similarity "+x" "+x" ["a/b"] ["a/b"] = 1 :=
  ⟨by decide, by decide, identical_inputs_similarity "+x" ["a/b"] (by decide) (by decide)⟩

/-- Counterexample for C8 as stated: identical inputs with an empty path
list (a commit whose modified_files decodes to []) give 0.6, not 1.0. -/
theorem identical_inputs_similarity_counterexample :
    calculate_diff_similarity "+x" "+x" [] [] ≠ 1 := by
  have h : calculate_diff_similarity "+x" "+x" [] [] = 3/5 := by
    simp only [calculate_diff_similarity]
    rw [show calculate_path_similarity [] [] = 0 by decide,
      calculate_diff_content_similarity_self "+x" (by decide)]
    norm_num
  rw [h]
  norm_num

/-- C10 (amended): the validator accepts every grouping the constructor
produces, for the same threshold, mapping and max_group_size, provided
max_group_size ≥ 1 (with max_group_size ≤ 0 the constructor still emits
singleton groups, which the validator then flags for capacity). -/
theorem validator_accepts_constructed (t : ℚ) (ms : Int)
    (m : List (String × String)) (commits : List Commit)
    (hms : (1 : Int) ≤ ms) :
    validate_groups t ms m (find_groups t ms m commits) = [] := by
  unfold validate_groups
  rw [List.flatten_eq_nil_iff]
  intro l hl
  simp only [List.mem_map] at hl
  obtain ⟨p, hmem, rfl⟩ := hl
  have hg : p.2 ∈ find_groups t ms m commits := List.snd_mem_of_mem_enum hmem
  exact validate_group_errors_nil t ms m p.1 p.2
    (find_groups_chain t ms m commits p.2 hg)
    (find_groups_size t ms m hms commits p.2 hg)

/-- Witness for C10 at a concrete input. -/
theorem validator_accepts_constructed_witness :
    ((1 : Int) ≤ 10)
    ∧ validate_groups (0.8 : ℚ) 10 [] (find_groups (0.8 : ℚ) 10 [] [cA, cB]) = [] :=
  ⟨by norm_num, validator_accepts_constructed (0.8 : ℚ) 10 [] [cA, cB] (by norm_num)⟩

/-- Counterexample for C10 as stated: with max_group_size = 0 the
constructor produces a singleton group that its own validator flags for
capacity, so the error list is not empty. -/
theorem validator_accepts_constructed_counterexample :
    validate_groups (0.8 : ℚ) 0 [] (find_groups (0.8 : ℚ) 0 [] [cA]) ≠ [] := by
  decide

/-! ## Lookup lemmas for the state-store updates -/

lemma mapLookup_insertOrReplace_self (m : List (String × String)) (k v : String) :
    mapLookup (insertOrReplace m k v) k = some v := by
  induction m with
  | nil => simp [insertOrReplace, mapLookup]
  | cons p rest ih =>
    by_cases hp : p.1 = k
    · simp [insertOrReplace, hp, mapLookup]
    · simp [insertOrReplace, hp, mapLookup, ih]

lemma mapLookup_insertOrReplace_other (m : List (String × String)) (k v h : String)
    (hne : h ≠ k) :
    mapLookup (insertOrReplace m k v) h = mapLookup m h := by
  have hsym : ¬(k = h) := fun he => hne he.symm
  induction m with
  | nil => simp [insertOrReplace, mapLookup, hsym]
  | cons p rest ih =>
    by_cases hp : p.1 = k
    · have hph : ¬(p.1 = h) := fun he => hne (he.symm.trans hp)
      simp [insertOrReplace, hp, mapLookup, hsym, hph]
    · by_cases hh : p.1 = h
      · simp [insertOrReplace, hp, mapLookup, hh, hne]
      · simp [insertOrReplace, hp, mapLookup, hh, ih]

lemma mapLookup_setStatus (st : List (String × String)) (h k s : String) :
    mapLookup (setStatus st k s) h
      = if h = k then (mapLookup st h).map (fun _ => s) else mapLookup st h := by
  induction st with
  | nil => simp [setStatus, mapLookup]
  | cons p rest ih =>
    by_cases hk : p.1 = k
    · by_cases hh : p.1 = h
      · have hhk : h = k := hh.symm.trans hk
        subst hhk
        simp [setStatus, mapLookup, hh]
      · have hkh : ¬(k = h) := fun he => hh (hk.trans he)
        have hhk : ¬(h = k) := fun he => hkh he.symm
        simp [setStatus, hk, mapLookup, hh, hkh, hhk]
    · by_cases hh : p.1 = h
      · have hhk : ¬(h = k) := fun he => hk (hh.trans he)
        simp [setStatus, hk, mapLookup, hh, hhk]
      · simp [setStatus, hk, mapLookup, hh, ih]

lemma update_state_mapping_lookup (head : String) :
    ∀ (msgs : List String) (statuses mapping : List (String × String)) (h : String),
      mapLookup ((update_state_after_rebase_all msgs head statuses mapping).2) h
        = if h ∈ msgs then some head else mapLookup mapping h := by
  intro msgs
  induction msgs with
  | nil => intro statuses mapping h; simp [update_state_after_rebase_all]
  | cons k ks ih =>
    intro statuses mapping h
    have hstep : update_state_after_rebase_all (k :: ks) head statuses mapping
        = update_state_after_rebase_all ks head (setStatus statuses k "done")
            (insertOrReplace mapping k head) := by
      simp [update_state_after_rebase_all]
    rw [hstep, ih]
    by_cases hmem : h ∈ ks
    · simp [hmem, List.mem_cons]
    · by_cases hk : h = k
      · subst hk
        simp [hmem, mapLookup_insertOrReplace_self]
      · simp [hmem, hk, mapLookup_insertOrReplace_other mapping k head h hk]

lemma update_state_status_lookup (head : String) :
    ∀ (msgs : List String) (statuses mapping : List (String × String)) (h : String),
      mapLookup ((update_state_after_rebase_all msgs head statuses mapping).1) h
        = if h ∈ msgs then (mapLookup statuses h).map (fun _ => "done")
          else mapLookup statuses h := by
  intro msgs
  induction msgs with
  | nil => intro statuses mapping h; simp [update_state_after_rebase_all]
  | cons k ks ih =>
    intro statuses mapping h
    have hstep : update_state_after_rebase_all (k :: ks) head statuses mapping
        = update_state_after_rebase_all ks head (setStatus statuses k "done")
            (insertOrReplace mapping k head) := by
      simp [update_state_after_rebase_all]
    rw [hstep, ih]
    by_cases hmem : h ∈ ks
    · rw [if_pos hmem, if_pos (List.mem_cons_of_mem k hmem)]
      rw [mapLookup_setStatus]
      by_cases hk : h = k
      · rw [if_pos hk]
        cases mapLookup statuses h <;> simp
      · rw [if_neg hk]
    · by_cases hk : h = k
      · subst hk
        rw [if_neg hmem, if_pos (List.mem_cons_self h ks)]
        rw [mapLookup_setStatus, if_pos rfl]
      · rw [if_neg hmem, if_neg (by simp [hk, hmem]), mapLookup_setStatus, if_neg hk]

lemma sequential_rewrite_fold (conflicts : String → Bool) :
    ∀ (commits : List Commit) (st : List String)
      (log : List (String × ReplayOutcome)),
      ((commits.foldl
          (fun acc c =>
            if conflicts c.hash then
              (acc.1, acc.2 ++ [(c.hash, ReplayOutcome.conflict)])
            else
              (acc.1 ++ ["new:" ++ c.hash], acc.2 ++ [(c.hash, ReplayOutcome.ok)]))
          (st, log)).2.map Prod.fst
        = log.map Prod.fst ++ commits.map Commit.hash)
      ∧ ((commits.foldl
          (fun acc c =>
            if conflicts c.hash then
              (acc.1, acc.2 ++ [(c.hash, ReplayOutcome.conflict)])
            else
              (acc.1 ++ ["new:" ++ c.hash], acc.2 ++ [(c.hash, ReplayOutcome.ok)]))
          (st, log)).1
        = st ++ (commits.filter (fun c => !(conflicts c.hash))).map
            (fun c => "new:" ++ c.hash)) := by
  intro commits
  induction commits with
  | nil => intro st log; simp
  | cons c cs ih =>
    intro st log
    by_cases hc : conflicts c.hash
    · have h := ih st (log ++ [(c.hash, ReplayOutcome.conflict)])
      constructor
      · rw [List.foldl_cons]
        rw [if_pos hc]
        rw [h.1]
        simp
      · rw [List.foldl_cons, if_pos hc, h.2]
        simp [hc]
    · have h := ih (st ++ ["new:" ++ c.hash]) (log ++ [(c.hash, ReplayOutcome.ok)])
      constructor
      · rw [List.foldl_cons, if_neg hc, h.1]
        simp
      · rw [List.foldl_cons, if_neg hc, h.2]
        simp [hc]

/-- The cherry-pick loop attempts every commit, in order: a conflict does
not stop the run. -/
lemma sequential_rewrite_log (conflicts : String → Bool) (root : String)
    (commits : List Commit) :
    (sequential_rewrite conflicts root commits).2.map Prod.fst
      = commits.map Commit.hash := by
  have h := (sequential_rewrite_fold conflicts commits [root] []).1
  simpa [sequential_rewrite] using h

/-- The scratch branch after the loop: the root followed by one new
commit per successfully replayed original; conflicting commits
contribute nothing. -/
lemma sequential_rewrite_branch (conflicts : String → Bool) (root : String)
    (commits : List Commit) :
    (sequential_rewrite conflicts root commits).1
      = root :: (commits.filter (fun c => !(conflicts c.hash))).map
          (fun c => "new:" ++ c.hash) := by
  have h := (sequential_rewrite_fold conflicts commits [root] []).2
  simpa [sequential_rewrite] using h

lemma rewrite_pipeline_log (conflicts : String → Bool) (root : String)
    (commits : List Commit) (msgs : List String)
    (statuses mapping : List (String × String)) :
    (rewrite_pipeline conflicts root commits msgs statuses mapping).log
      = (sequential_rewrite conflicts root commits).2 := rfl

lemma rewrite_pipeline_head (conflicts : String → Bool) (root : String)
    (commits : List Commit) (msgs : List String)
    (statuses mapping : List (String × String)) :
    (rewrite_pipeline conflicts root commits msgs statuses mapping).head
      = (sequential_rewrite conflicts root commits).1.getLastD root := rfl

lemma rewrite_pipeline_mapping (conflicts : String → Bool) (root : String)
    (commits : List Commit) (msgs : List String)
    (statuses mapping : List (String × String)) :
    (rewrite_pipeline conflicts root commits msgs statuses mapping).mapping
      = (update_state_after_rebase_all msgs
          ((sequential_rewrite conflicts root commits).1.getLastD root)
          statuses mapping).2 := rfl

lemma rewrite_pipeline_statuses (conflicts : String → Bool) (root : String)
    (commits : List Commit) (msgs : List String)
    (statuses mapping : List (String × String)) :
    (rewrite_pipeline conflicts root commits msgs statuses mapping).statuses
      = (update_state_after_rebase_all msgs
          ((sequential_rewrite conflicts root commits).1.getLastD root)
          statuses mapping).1 := rfl

/-- C6 (amended): when a commit's cherry-pick conflicts, the replay of
that commit is aborted (it contributes no commit to the rewritten
branch) and the loop continues with all remaining commits, so the run is
not aborted; but the failed commit is not recorded as skipped — after
the loop, every commit that received a generated message is marked
'done' and mapped to the single final HEAD of the rewritten branch,
whether or not its replay succeeded. -/
theorem conflict_handling (conflicts : String → Bool) (root : String)
    (commits : List Commit) (msgs : List String)
    (statuses mapping : List (String × String)) (h : String) (hmem : h ∈ msgs) :
    ((rewrite_pipeline conflicts root commits msgs statuses mapping).log.map Prod.fst
        = commits.map Commit.hash)
    ∧ ((sequential_rewrite conflicts root commits).1
        = root :: (commits.filter (fun c => !(conflicts c.hash))).map
            (fun c => "new:" ++ c.hash))
    ∧ mapLookup (rewrite_pipeline conflicts root commits msgs statuses mapping).mapping h
        = some (rewrite_pipeline conflicts root commits msgs statuses mapping).head
    ∧ mapLookup (rewrite_pipeline conflicts root commits msgs statuses mapping).statuses h
        = (mapLookup statuses h).map (fun _ => "done") := by
  refine ⟨?_, sequential_rewrite_branch conflicts root commits, ?_, ?_⟩
  · rw [rewrite_pipeline_log]
    exact sequential_rewrite_log conflicts root commits
  · rw [rewrite_pipeline_mapping, rewrite_pipeline_head,
      update_state_mapping_lookup, if_pos hmem]
  · rw [rewrite_pipeline_statuses, update_state_status_lookup, if_pos hmem]

/-- Witness for C6 at a concrete input, applying the amended theorem to
the commit "b2" of the two-commit run in which "b2" conflicts. -/
theorem conflict_handling_witness :
    ("b2" ∈ ["a1", "b2"])
    ∧ ((rewrite_pipeline (fun x => x == "b2") "root" [cA, cB] ["a1", "b2"]
        [("a1", "pending"), ("b2", "pending")] []).log.map Prod.fst
          = [cA, cB].map Commit.hash)
    ∧ mapLookup (rewrite_pipeline (fun x => x == "b2") "root" [cA, cB] ["a1", "b2"]
        [("a1", "pending"), ("b2", "pending")] []).mapping "b2"
        = some (rewrite_pipeline (fun x => x == "b2") "root" [cA, cB] ["a1", "b2"]
            [("a1", "pending"), ("b2", "pending")] []).head := by
  have hmem : ("b2" : String) ∈ ["a1", "b2"] := by decide
  have h := conflict_handling (fun x => x == "b2") "root" [cA, cB] ["a1", "b2"]
    [("a1", "pending"), ("b2", "pending")] [] "b2" hmem
  exact ⟨hmem, h.1, h.2.2.1⟩

/-- Counterexample for C6 as stated: in the concrete two-commit run
where "b2" conflicts, the final log records the conflict, yet "b2" ends
with status 'done' (not skipped/failed) and the mapping does not omit it:
it maps "b2" to the rewritten HEAD "new:a1" — the same non-sentinel hash
the successful commit "a1" is mapped to. -/
theorem conflict_handling_counterexample :
    (rewrite_pipeline (fun x => x == "b2") "root" [cA, cB] ["a1", "b2"]
        [("a1", "pending"), ("b2", "pending")] []).log
      = [("a1", ReplayOutcome.ok), ("b2", ReplayOutcome.conflict)]
    ∧ mapLookup (rewrite_pipeline (fun x => x == "b2") "root" [cA, cB] ["a1", "b2"]
        [("a1", "pending"), ("b2", "pending")] []).statuses "b2" = some "done"
    ∧ mapLookup (rewrite_pipeline (fun x => x == "b2") "root" [cA, cB] ["a1", "b2"]
        [("a1", "pending"), ("b2", "pending")] []).mapping "b2" = some "new:a1"
    ∧ mapLookup (rewrite_pipeline (fun x => x == "b2") "root" [cA, cB] ["a1", "b2"]
        [("a1", "pending"), ("b2", "pending")] []).mapping "a1" = some "new:a1"
    ∧ (rewrite_pipeline (fun x => x == "b2") "root" [cA, cB] ["a1", "b2"]
        [("a1", "pending"), ("b2", "pending")] []).head = "new:a1" := by
  decide

/-- C7: evaluating the persistence step at the two-commit group the
repository's own test (test_similar_commits) constructs: the second
INSERT reuses group_id 0, the INTEGER PRIMARY KEY of commit_groups, so
the save fails with a UNIQUE-constraint error instead of persisting the
grouping (the failing transaction is rolled back, leaving the table as
it was). -/
theorem group_persistence_unique_violation :
    persist_groups [[cA, cB]] []
      = Except.error ("UNIQUE constraint failed: commit_groups.group_id", []) := by
  rfl

/-- C9: the resume check succeeds exactly when a session state row
exists and at least one commit has status 'pending'. -/
theorem resume_check_iff (db : DbState) :
    can_resume db = true ↔
      db.session.isSome = true ∧ ∃ c ∈ db.commits, c.status = "pending" := by
  obtain ⟨commits, session⟩ := db
  cases session with
  | none => simp [can_resume]
  | some s =>
    simp only [can_resume, Option.isSome_some, true_and, decide_eq_true_eq]
    unfold get_pending_commits sortByDate
    rw [List.length_mergeSort, List.length_pos_iff_exists_mem]
    constructor
    · rintro ⟨c, hc⟩
      rw [List.mem_filter] at hc
      exact ⟨c, hc.1, by simpa using hc.2⟩
    · rintro ⟨c, hc, hs⟩
      exact ⟨c, List.mem_filter.mpr ⟨hc, by simpa using hs⟩⟩

end AutoRewrite
